import Mathlib

/-
Verification of the sliding-window file-transfer protocol implemented in
`src/network_device.py`, `src/client.py` and `src/server.py`.

Modelling conventions:
* Byte strings are `List ℕ` (each element a byte value).
* Python `hashlib.md5(data).digest()[:4]` is external library code, so the
  codec is parameterised by a digest function `md5_4 : List ℕ → List ℕ`;
  the only fact the source relies on is that the digest of a byte string
  is a fixed 4-byte value, carried as a hypothesis where needed.
* `struct.pack`/`struct.error` are modelled by an `Option` result: packing
  fails exactly when a field value is out of range for its format code.
* Python dict values in `packet_buffer` / `received_buffer` are encoded
  packets that are only ever written back to the socket; no control-flow
  decision reads them, so the state machine tracks the key sets
  (`Finset ℕ`), exactly mirroring every insertion and deletion the source
  performs.
-/

-- Message type constants from network_device.py
def DISCONNECT_TYPE : ℕ := 2
def NACK_TYPE : ℕ := 3
def ACK_TYPE : ℕ := 1
def DATA_TYPE : ℕ := 0

-- Big-endian encoding of `n` into `w` bytes, as produced by struct.pack
-- format codes I (w = 4) and H (w = 2).
def toBytesBE : ℕ → ℕ → List ℕ
  | 0, _ => []
  | w + 1, n => toBytesBE w (n / 256) ++ [n % 256]

-- Big-endian decoding, as performed by struct.unpack.
def fromBytesBE (l : List ℕ) : ℕ := l.foldl (fun a b => 256 * a + b) 0

-- struct.pack format code 4s: a bytes value is truncated or zero-padded
-- to exactly 4 bytes.
def pad4 (c : List ℕ) : List ℕ := c.take 4 ++ List.replicate (4 - c.length) 0

-- struct.pack('!IBH4s', len, type, seq, cksum): raises struct.error when
-- len does not fit an unsigned 32-bit field, type an unsigned byte, or
-- seq an unsigned 16-bit field (in the source seq is a Python int and can
-- be negative, hence ℤ here).
def structPackIBH4s (len ty : ℕ) (seq : ℤ) (cksum : List ℕ) : Option (List ℕ) :=
  if len < 2 ^ 32 ∧ ty < 256 ∧ 0 ≤ seq ∧ seq < 65536 then
    some (toBytesBE 4 len ++ [ty] ++ toBytesBE 2 seq.toNat ++ pad4 cksum)
  else
    none

-- NetworkDevice.create_packet with the default checksum=None argument:
-- the checksum is md5(payload)[:4] and the header is packed with
-- struct.pack('!IBH4s', ...).  (The one caller that passes a checksum,
-- Client.send_packets_in_window, passes calculate_checksum(payload),
-- which is the same 4-byte value, so this covers both call shapes.)
def create_packet (md5_4 : List ℕ → List ℕ) (message_type : ℕ)
    (payload : List ℕ) (sequence_num : ℤ) : Option (List ℕ) :=
  let checksum := md5_4 payload
  (structPackIBH4s payload.length message_type sequence_num checksum).map
    (fun header => header ++ payload)

structure ParsedPacket where
  type : ℕ
  sequence : ℕ
  payload : List ℕ
  length : ℕ
  deriving DecidableEq, Repr

-- NetworkDevice.parse_packet: header slices follow struct.unpack('!IBH4s')
-- on packet[:11] (bytes 0-3 length, byte 4 type, bytes 5-6 sequence,
-- bytes 7-10 checksum); returns None on a short packet, a truncated
-- payload, or a checksum mismatch.
def parse_packet (md5_4 : List ℕ → List ℕ) (packet : List ℕ) :
    Option ParsedPacket :=
  if packet.length < 11 then none
  else
    let payload_length := fromBytesBE (packet.take 4)
    let message_type := fromBytesBE ((packet.drop 4).take 1)
    let sequence_num := fromBytesBE ((packet.drop 5).take 2)
    let checksum := (packet.drop 7).take 4
    if packet.length < 11 + payload_length then none
    else
      let payload := (packet.drop 11).take payload_length
      if md5_4 payload ≠ checksum then none
      else some ⟨message_type, sequence_num, payload, payload_length⟩

-- Python range(start, stop, step) for a positive step; start=stop or
-- start>stop gives the empty range.  (A zero step raises ValueError in
-- Python; fragment_message only ever uses step = max_fragment_size.)
def pythonRange (start stop step : ℕ) : List ℕ :=
  if h : 0 < step ∧ start < stop then start :: pythonRange (start + step) stop step
  else []
termination_by stop - start
decreasing_by omega

-- Client.fragment_message: note the source sets stop = max_fragment_size
-- (not len(message)), so the range is range(0, f, f).
def fragment_message (max_fragment_size : ℕ) (message : List Char) :
    List (List Char) :=
  (pythonRange 0 max_fragment_size max_fragment_size).map
    (fun i => (message.drop i).take max_fragment_size)

-- Sender-side sliding-window state (Client attributes).  packet_buffer
-- and ack_received track the dict keys / set elements; the dict values
-- (encoded packets) are only ever re-sent on the socket and never guide
-- control flow.
inductive Protocol where
  | gbn
  | sr
  deriving DecidableEq, Repr

structure SenderState where
  protocol : Protocol
  window_size : ℕ
  base_seq_num : ℕ
  next_seq_num : ℕ
  packet_buffer : Finset ℕ
  ack_received : Finset ℕ
  retry_count : ℕ
  max_retries : ℕ
  deriving DecidableEq

-- Client.__init__ / a fresh window: all counters zero, buffers empty.
def freshSender (p : Protocol) (window max_retries : ℕ) : SenderState :=
  ⟨p, window, 0, 0, ∅, ∅, 0, max_retries⟩

-- Client.reset_parameters
def reset_parameters (st : SenderState) : SenderState :=
  { st with base_seq_num := 0, next_seq_num := 0, packet_buffer := ∅,
            ack_received := ∅, retry_count := 0 }

-- Client.send_packets_in_window: while next_seq_num < len(fragments) and
-- next_seq_num < base_seq_num + window_size, buffer and send fragment
-- next_seq_num, then advance next_seq_num.  Only the fragment count
-- matters for the state machine.
def send_packets_in_window (fragment_count : ℕ) (st : SenderState) : SenderState :=
  if h : st.next_seq_num < fragment_count ∧
      st.next_seq_num < st.base_seq_num + st.window_size then
    send_packets_in_window fragment_count
      { st with packet_buffer := insert st.next_seq_num st.packet_buffer,
                next_seq_num := st.next_seq_num + 1 }
  else st
termination_by fragment_count - st.next_seq_num
decreasing_by simp at *; omega

-- The while-loop inside the Selective Repeat branch of Client.handle_ack:
-- while base_seq_num in ack_received: drop it from packet_buffer and
-- advance base_seq_num.
def srDrain (acked : Finset ℕ) (base : ℕ) (buf : Finset ℕ) : ℕ × Finset ℕ :=
  if h : base ∈ acked then srDrain acked (base + 1) (buf.erase base)
  else (base, buf)
termination_by acked.sup id + 1 - base
decreasing_by
  have hle : id base ≤ acked.sup id := Finset.le_sup h
  simp at hle
  omega

-- Client.handle_ack
def handle_ack (ack_seq : ℕ) (st : SenderState) : SenderState :=
  match st.protocol with
  | Protocol.gbn =>
    if ack_seq < st.base_seq_num then st
    else
      { st with base_seq_num := ack_seq + 1,
                packet_buffer :=
                  st.packet_buffer \ Finset.Ico st.base_seq_num (ack_seq + 1) }
  | Protocol.sr =>
    let acked := insert ack_seq st.ack_received
    let r := srDrain acked st.base_seq_num st.packet_buffer
    { st with ack_received := acked, base_seq_num := r.1, packet_buffer := r.2 }

-- Client.handle_nack only re-sends buffered packets (the whole window for
-- GBN, the NACKed one for SR); the window state is unchanged.
def handle_nack (nack_seq : ℕ) (st : SenderState) : SenderState := st

-- Client.handle_timeout at a timeout event: increment retry_count and
-- re-send buffered packets (all of them for GBN, the unacked ones for
-- SR); re-sending does not change the window state.
def handle_timeout (st : SenderState) : SenderState :=
  { st with retry_count := st.retry_count + 1 }

-- Client.execute_sliding_window under loss_probability = 1.0: every DATA
-- packet is dropped by the channel, so process_acks never delivers an ACK
-- or NACK and the state is only changed by filling the window and by
-- timeout events.  Wall-clock waiting is abstracted: an iteration either
-- reaches the timeout check with the timeout expired (the only
-- state-changing case; the source condition base_seq_num < next_seq_num
-- is kept) or changes nothing.  The fuel argument bounds the number of
-- loop iterations; `none` means the loop was still running.  The second
-- result component counts the timeout retransmission rounds performed.
def execute_sliding_window_loss : ℕ → ℕ → SenderState → ℕ → Option (Bool × ℕ)
  | 0, _, _, _ => none
  | fuel + 1, fragment_count, st, attempts =>
    if st.base_seq_num < fragment_count then
      if st.retry_count > st.max_retries then some (false, attempts)
      else
        let st1 := send_packets_in_window fragment_count st
        if st1.base_seq_num < st1.next_seq_num then
          let st2 := handle_timeout st1
          if st2.retry_count > st2.max_retries then some (false, attempts)
          else execute_sliding_window_loss fuel fragment_count st2 (attempts + 1)
        else execute_sliding_window_loss fuel fragment_count st1 attempts
    else some (true, attempts)

-- The sender operations of the window engine (Client methods that touch
-- the sliding-window state).
inductive SenderOp where
  | reset
  | fill (fragment_count : ℕ)
  | ack (seq : ℕ)
  | nack (seq : ℕ)
  | timeout
  deriving DecidableEq

def applyOp (st : SenderState) : SenderOp → SenderState
  | SenderOp.reset => reset_parameters st
  | SenderOp.fill c => send_packets_in_window c st
  | SenderOp.ack k => handle_ack k st
  | SenderOp.nack k => handle_nack k st
  | SenderOp.timeout => handle_timeout st

def applyOps (st : SenderState) (ops : List SenderOp) : SenderState :=
  ops.foldl applyOp st

-- An ACK refers to a packet the sender has actually transmitted, i.e. its
-- sequence number is below next_seq_num; all other operations are
-- unrestricted.
def validOpB (st : SenderState) : SenderOp → Bool
  | SenderOp.ack k => decide (k < st.next_seq_num)
  | _ => true

def validTraceB : SenderState → List SenderOp → Bool
  | _, [] => true
  | st, op :: rest => validOpB st op && validTraceB (applyOp st op) rest

-- The sender window invariant of the spec data model, with the auxiliary
-- fact that every acknowledged sequence number has been sent.
def SenderInv (st : SenderState) : Prop :=
  st.base_seq_num ≤ st.next_seq_num ∧
    st.next_seq_num ≤ st.base_seq_num + st.window_size ∧
    st.packet_buffer = Finset.Ico st.base_seq_num st.next_seq_num ∧
    ∀ a ∈ st.ack_received, a < st.next_seq_num

-- Server-side session state, as created by Server.handle_syn.  The
-- socket handle and the last_checksum field (only read by the legacy
-- handle_message path, which no claim concerns) are omitted;
-- received_buffer tracks the dict keys as before.
structure ServerSession where
  protocol : String
  max_fragment_size : ℕ
  window_size : ℕ
  handshake_complete : Bool
  expected_seq_num : ℕ
  received_buffer : Finset ℕ
  last_ack_sent : ℤ
  session_id : String
  deriving DecidableEq

-- The SYN-ACK response dict built by Server.handle_syn.
structure SynAck where
  status : String
  protocol : String
  max_fragment_size : ℕ
  window_size : ℕ
  session_id : String
  message : String
  deriving DecidableEq

-- Server.handle_syn: data.get(key, default) is modelled with Option
-- arguments and getD against the server defaults; the session id is
-- hashlib.md5(client_address + hostname)[:8], external library code, so
-- it is a parameter.  The source performs no validation of the proposed
-- protocol: the session and the response always carry status ok.
def handle_syn (server_protocol : String) (server_max_fragment server_window : ℕ)
    (session_id : String) (req_protocol : Option String)
    (req_fragment req_window : Option ℕ) : ServerSession × SynAck :=
  let client_protocol := req_protocol.getD server_protocol
  let requested_fragment_size := req_fragment.getD server_max_fragment
  let requested_window_size := req_window.getD server_window
  let max_fragment_size := min requested_fragment_size server_max_fragment
  (⟨client_protocol, max_fragment_size, requested_window_size, false, 0, ∅,
      -1, session_id⟩,
   ⟨"ok", client_protocol, max_fragment_size, requested_window_size,
      session_id, "SYN-ACK: Parameters accepted"⟩)

-- Server.process_sr_buffer: while expected_seq_num is in received_buffer,
-- deliver it, remove it and advance expected_seq_num.
def process_sr_buffer (expected_seq : ℕ) (buf : Finset ℕ) : ℕ × Finset ℕ :=
  if h : expected_seq ∈ buf then
    process_sr_buffer (expected_seq + 1) (buf.erase expected_seq)
  else (expected_seq, buf)
termination_by buf.card
decreasing_by exact Finset.card_erase_lt_of_mem h

-- Server.handle_sr_message: store the payload under its sequence number
-- unconditionally, send ACK(seq) (state-neutral), then drain the buffer
-- from expected_seq_num.  The UnicodeDecodeError branch performs the same
-- state changes.
def handle_sr_message (seq : ℕ) (s : ServerSession) : ServerSession :=
  let buf := insert seq s.received_buffer
  let r := process_sr_buffer s.expected_seq_num buf
  { s with expected_seq_num := r.1, received_buffer := r.2 }

-- Python str.encode('utf-8') for the ASCII log/ACK strings used here
-- (UTF-8 agrees with the code points on ASCII).
def strBytes (s : String) : List ℕ := s.data.map Char.toNat

-- Server.handle_gbn_message: out-of-order data is answered by re-sending
-- an ACK for last_ack_sent, in-order data advances expected_seq_num and
-- last_ack_sent and is ACKed with its own sequence number.  Only
-- UnicodeDecodeError is caught (and its branch repeats the same logic),
-- so a struct.error from create_packet propagates: result none.  The
-- result otherwise carries the session, the accepted flag and the ACK
-- packet written to the socket.
def handle_gbn_message (md5_4 : List ℕ → List ℕ) (seq : ℕ) (s : ServerSession) :
    Option (ServerSession × Bool × List ℕ) :=
  if seq ≠ s.expected_seq_num then
    match create_packet md5_4 ACK_TYPE
        (strBytes ("ACK for seq " ++ toString s.last_ack_sent)) s.last_ack_sent with
    | none => none
    | some pkt => some (s, false, pkt)
  else
    let s2 := { s with expected_seq_num := s.expected_seq_num + 1,
                       last_ack_sent := (s.expected_seq_num : ℤ) }
    match create_packet md5_4 ACK_TYPE
        (strBytes ("ACK for seq " ++ toString seq)) (seq : ℤ) with
    | none => none
    | some pkt => some (s2, true, pkt)

theorem toBytesBE_length (w n : ℕ) : (toBytesBE w n).length = w := by
  induction w generalizing n with
  | zero => rfl
  | succ w ih => simp [toBytesBE, ih]

theorem fromBytesBE_append_singleton (l : List ℕ) (b : ℕ) :
    fromBytesBE (l ++ [b]) = 256 * fromBytesBE l + b := by
  simp [fromBytesBE, List.foldl_append]

theorem fromBytesBE_toBytesBE (w n : ℕ) :
    fromBytesBE (toBytesBE w n) = n % 256 ^ w := by
  induction w generalizing n with
  | zero => simp [toBytesBE, fromBytesBE, Nat.mod_one]
  | succ w ih =>
    rw [toBytesBE, fromBytesBE_append_singleton, ih]
    have hq := Nat.div_add_mod n 256
    have hb : n / 256 % 256 ^ w < 256 ^ w := Nat.mod_lt _ (Nat.pos_pow_of_pos w (by omega))
    have hr : n % 256 < 256 := Nat.mod_lt _ (by omega)
    have hd := Nat.div_add_mod (n / 256) (256 ^ w)
    have hrepr : n = 256 * (n / 256 % 256 ^ w) + n % 256 + 256 ^ (w + 1) * (n / 256 / 256 ^ w) := by
      rw [pow_succ]
      nlinarith [hq, hd]
    have hlt : 256 * (n / 256 % 256 ^ w) + n % 256 < 256 ^ (w + 1) := by
      rw [pow_succ]
      nlinarith [hb, hr]
    conv_rhs => rw [hrepr]
    rw [Nat.add_mul_mod_self_left, Nat.mod_eq_of_lt hlt]

theorem pad4_of_length_four (c : List ℕ) (h : c.length = 4) : pad4 c = c := by
  simp [pad4, h, List.take_of_length_le (by omega : c.length ≤ 4)]

theorem pad4_length (c : List ℕ) (h : c.length = 4) : (pad4 c).length = 4 := by
  rw [pad4_of_length_four c h, h]

/-- C1: for every payload of length at most 65535 bytes and every sequence
number representable as uint16, the bytes produced by
create_packet(DATA, p, seq) parse back (parse_packet) into a packet record
with type DATA, sequence seq and payload p. -/
theorem create_parse_roundtrip (md5_4 : List ℕ → List ℕ)
    (hmd5 : ∀ d, (md5_4 d).length = 4) (p : List ℕ) (seq : ℕ)
    (hp : p.length ≤ 65535) (hs : seq ≤ 65535) :
    ∃ pkt, create_packet md5_4 DATA_TYPE p (seq : ℤ) = some pkt ∧
      parse_packet md5_4 pkt = some ⟨DATA_TYPE, seq, p, p.length⟩ := by
  have h32 : p.length < 2 ^ 32 := lt_of_le_of_lt hp (by norm_num)
  have hcond : p.length < 2 ^ 32 ∧ DATA_TYPE < 256 ∧ (0 : ℤ) ≤ (seq : ℤ) ∧ (seq : ℤ) < 65536 := by
    refine ⟨h32, by norm_num [DATA_TYPE], Int.natCast_nonneg seq, ?_⟩
    exact_mod_cast (by omega : seq < 65536)
  set t4 := toBytesBE 4 p.length with ht4def
  set s2 := toBytesBE 2 (Int.toNat (seq : ℤ)) with hs2def
  set ck := pad4 (md5_4 p) with hckdef
  have ht4 : t4.length = 4 := toBytesBE_length 4 p.length
  have hs2 : s2.length = 2 := toBytesBE_length 2 _
  have hck : ck.length = 4 := pad4_length _ (hmd5 p)
  have hcreate : create_packet md5_4 DATA_TYPE p (seq : ℤ) =
      some ((t4 ++ [DATA_TYPE] ++ s2 ++ ck) ++ p) := by
    simp only [create_packet, structPackIBH4s]
    rw [if_pos hcond]
    rfl
  refine ⟨(t4 ++ [DATA_TYPE] ++ s2 ++ ck) ++ p, hcreate, ?_⟩
  set pkt := (t4 ++ [DATA_TYPE] ++ s2 ++ ck) ++ p with hpkt
  have hlen : pkt.length = 11 + p.length := by
    simp [hpkt, ht4, hs2, hck]
    omega
  have e4 : pkt = t4 ++ ([DATA_TYPE] ++ (s2 ++ (ck ++ p))) := by
    simp [hpkt, List.append_assoc]
  have e5 : pkt = (t4 ++ [DATA_TYPE]) ++ (s2 ++ (ck ++ p)) := by
    simp [hpkt, List.append_assoc]
  have e7 : pkt = (t4 ++ [DATA_TYPE] ++ s2) ++ (ck ++ p) := by
    simp [hpkt, List.append_assoc]
  have htake4 : pkt.take 4 = t4 := by
    rw [e4]; exact List.take_left' ht4
  have hdrop4 : pkt.drop 4 = [DATA_TYPE] ++ (s2 ++ (ck ++ p)) := by
    rw [e4]; exact List.drop_left' ht4
  have hdrop5 : pkt.drop 5 = s2 ++ (ck ++ p) := by
    rw [e5]; exact List.drop_left' (by simp [ht4])
  have hdrop7 : pkt.drop 7 = ck ++ p := by
    rw [e7]; exact List.drop_left' (by simp [ht4, hs2])
  have hdrop11 : pkt.drop 11 = p := by
    rw [hpkt]; exact List.drop_left' (by simp [ht4, hs2, hck])
  have hplen : fromBytesBE (pkt.take 4) = p.length := by
    rw [htake4, ht4def, fromBytesBE_toBytesBE]
    exact Nat.mod_eq_of_lt (lt_of_le_of_lt hp (by norm_num))
  have htype : fromBytesBE ((pkt.drop 4).take 1) = DATA_TYPE := by
    rw [hdrop4]
    simp [fromBytesBE]
  have hseq : fromBytesBE ((pkt.drop 5).take 2) = seq := by
    rw [hdrop5, List.take_left' hs2, hs2def, fromBytesBE_toBytesBE]
    simp
    omega
  have hcksum : (pkt.drop 7).take 4 = md5_4 p := by
    rw [hdrop7, List.take_left' hck, hckdef, pad4_of_length_four _ (hmd5 p)]
  have hpayload : (pkt.drop 11).take p.length = p := by
    rw [hdrop11, List.take_length]
  simp only [parse_packet]
  rw [if_neg (by omega)]
  simp only [hplen, htype, hseq, hcksum, hpayload]
  rw [if_neg (by omega)]
  rw [if_neg (by simp)]

/-- C1 witness: instantiation at payload [72, 73], sequence 7, with a
concrete 4-byte digest function. -/
theorem create_parse_roundtrip_witness :
    ∃ pkt, create_packet (fun _ => [0, 0, 0, 0]) DATA_TYPE [72, 73] ((7 : ℕ) : ℤ) = some pkt ∧
      parse_packet (fun _ => [0, 0, 0, 0]) pkt = some ⟨DATA_TYPE, 7, [72, 73], 2⟩ :=
  create_parse_roundtrip (fun _ => [0, 0, 0, 0]) (fun _ => rfl) [72, 73] 7
    (by decide) (by decide)

theorem pythonRange_self (f : ℕ) (hf : 0 < f) : pythonRange 0 f f = [0] := by
  rw [pythonRange, dif_pos ⟨hf, hf⟩, pythonRange, dif_neg (by omega)]

theorem fragment_message_eq_take (f : ℕ) (m : List Char) (hf : 0 < f) :
    fragment_message f m = [m.take f] := by
  simp [fragment_message, pythonRange_self f hf]

/-- C2 (code bug): fragment_message with fragment size 3 applied to the
ten-character message "HELLOWORLD" returns only the single fragment "HEL",
so concatenating the fragments in order does not reproduce the message:
the loop bound is max_fragment_size instead of len(message). -/
theorem fragment_message_drops_tail :
    fragment_message 3 ['H','E','L','L','O','W','O','R','L','D'] = [['H','E','L']] ∧
      (fragment_message 3 ['H','E','L','L','O','W','O','R','L','D']).flatten ≠
        ['H','E','L','L','O','W','O','R','L','D'] := by
  have h := fragment_message_eq_take 3 ['H','E','L','L','O','W','O','R','L','D'] (by omega)
  constructor
  · rw [h]; rfl
  · rw [h]; decide

theorem srDrain_spec (acked : Finset ℕ) (base : ℕ) (buf : Finset ℕ) :
    base ≤ (srDrain acked base buf).1 ∧
      (srDrain acked base buf).1 ∉ acked ∧
      (∀ m, base ≤ m → m < (srDrain acked base buf).1 → m ∈ acked) ∧
      (srDrain acked base buf).2 = buf \ Finset.Ico base (srDrain acked base buf).1 := by
  induction base, buf using srDrain.induct acked with
  | case1 base buf h ih =>
    obtain ⟨ih1, ih2, ih3, ih4⟩ := ih
    have hstep : srDrain acked base buf = srDrain acked (base + 1) (buf.erase base) := by
      conv_lhs => rw [srDrain]
      exact dif_pos h
    rw [hstep]
    refine ⟨by omega, ih2, ?_, ?_⟩
    · intro m hm1 hm2
      rcases Nat.eq_or_lt_of_le hm1 with rfl | hlt
      · exact h
      · exact ih3 m (by omega) hm2
    · rw [ih4]
      ext j
      simp only [Finset.mem_sdiff, Finset.mem_erase, Finset.mem_Ico]
      constructor
      · rintro ⟨⟨hj1, hj2⟩, hj3⟩
        exact ⟨hj2, fun hcon => hj3 ⟨by omega, hcon.2⟩⟩
      · rintro ⟨hj1, hj2⟩
        refine ⟨⟨?_, hj1⟩, fun hcon => hj2 ⟨by omega, hcon.2⟩⟩
        intro heq
        subst heq
        exact hj2 ⟨le_refl _, by omega⟩
  | case2 base buf h =>
    have hstep : srDrain acked base buf = (base, buf) := by
      conv_lhs => rw [srDrain]
      exact dif_neg h
    rw [hstep]
    exact ⟨le_refl _, h, fun m hm1 hm2 => absurd (lt_of_le_of_lt hm1 hm2) (lt_irrefl _),
      by simp⟩

/-- C4: in GBN mode, on a window state whose buffered keys all lie at or
above base_seq_num (the data-model invariant for a sender window state),
an ACK for k with k at or above base_seq_num sets base_seq_num to exactly
k + 1 and leaves no packet_buffer entry with key below k + 1. -/
theorem gbn_cumulative_ack (st : SenderState) (k : ℕ)
    (hp : st.protocol = Protocol.gbn) (hk : st.base_seq_num ≤ k)
    (hbuf : ∀ j ∈ st.packet_buffer, st.base_seq_num ≤ j) :
    (handle_ack k st).base_seq_num = k + 1 ∧
      ∀ j ∈ (handle_ack k st).packet_buffer, k + 1 ≤ j := by
  rw [handle_ack, hp]
  rw [if_neg (by omega)]
  refine ⟨rfl, ?_⟩
  intro j hj
  simp only [Finset.mem_sdiff, Finset.mem_Ico] at hj
  have := hbuf j hj.1
  omega

/-- C4 witness: window [0, 2) with packets 0 and 1 buffered; ACK(1) moves
the base to 2 and empties the buffer of keys below 2. -/
theorem gbn_cumulative_ack_witness :
    (handle_ack 1 ⟨Protocol.gbn, 4, 0, 2, {0, 1}, ∅, 0, 5⟩).base_seq_num = 2 ∧
      ∀ j ∈ (handle_ack 1 ⟨Protocol.gbn, 4, 0, 2, {0, 1}, ∅, 0, 5⟩).packet_buffer,
        2 ≤ j :=
  gbn_cumulative_ack ⟨Protocol.gbn, 4, 0, 2, {0, 1}, ∅, 0, 5⟩ 1 rfl (by decide)
    (by decide)

/-- C9: in GBN mode, an ACK for k with k below base_seq_num changes
nothing: neither base_seq_num nor packet_buffer (the whole state is
untouched). -/
theorem gbn_stale_ack_ignored (st : SenderState) (k : ℕ)
    (hp : st.protocol = Protocol.gbn) (hk : k < st.base_seq_num) :
    handle_ack k st = st := by
  rw [handle_ack, hp, if_pos hk]

/-- C9 witness: ACK(0) against a window already based at 1 leaves the
state unchanged. -/
theorem gbn_stale_ack_ignored_witness :
    handle_ack 0 ⟨Protocol.gbn, 4, 1, 2, {1}, ∅, 0, 5⟩ =
      ⟨Protocol.gbn, 4, 1, 2, {1}, ∅, 0, 5⟩ :=
  gbn_stale_ack_ignored ⟨Protocol.gbn, 4, 1, 2, {1}, ∅, 0, 5⟩ 0 rfl (by decide)

/-- C5: in SR mode, an ACK for k adds k to the acked set, and base_seq_num
advances to exactly the first sequence number at or above the old base
that is still unacknowledged (so it skips the whole contiguous
acknowledged run, does not move at all while an earlier fragment is
unacknowledged, and jumps past the filled run once the gap closes); the
packet_buffer entries passed over are deleted and no other entry changes. -/
theorem sr_selective_ack (st : SenderState) (k : ℕ)
    (hp : st.protocol = Protocol.sr) :
    (handle_ack k st).ack_received = insert k st.ack_received ∧
      st.base_seq_num ≤ (handle_ack k st).base_seq_num ∧
      (handle_ack k st).base_seq_num ∉ insert k st.ack_received ∧
      (∀ m, st.base_seq_num ≤ m → m < (handle_ack k st).base_seq_num →
        m ∈ insert k st.ack_received) ∧
      (handle_ack k st).packet_buffer =
        st.packet_buffer \
          Finset.Ico st.base_seq_num (handle_ack k st).base_seq_num := by
  obtain ⟨pr, w, b, n, buf, ack, r, m⟩ := st
  simp only at hp
  subst hp
  have h := srDrain_spec (insert k ack) b buf
  exact ⟨rfl, h.1, h.2.1, h.2.2.1, h.2.2.2⟩

/-- C5 witness: fragments 0,1,2 in flight, ACK(1) arrives before ACK(0):
the acked set gains 1 but the base stays at 0 and the buffer keeps all
entries. -/
theorem sr_selective_ack_witness :
    (handle_ack 1 ⟨Protocol.sr, 2, 0, 2, {0, 1}, ∅, 0, 5⟩).ack_received =
        insert 1 (∅ : Finset ℕ) ∧
      (0 : ℕ) ≤ (handle_ack 1 ⟨Protocol.sr, 2, 0, 2, {0, 1}, ∅, 0, 5⟩).base_seq_num ∧
      (handle_ack 1 ⟨Protocol.sr, 2, 0, 2, {0, 1}, ∅, 0, 5⟩).base_seq_num ∉
        insert 1 (∅ : Finset ℕ) ∧
      (∀ m, 0 ≤ m →
        m < (handle_ack 1 ⟨Protocol.sr, 2, 0, 2, {0, 1}, ∅, 0, 5⟩).base_seq_num →
        m ∈ insert 1 (∅ : Finset ℕ)) ∧
      (handle_ack 1 ⟨Protocol.sr, 2, 0, 2, {0, 1}, ∅, 0, 5⟩).packet_buffer =
        {0, 1} \ Finset.Ico 0
          (handle_ack 1 ⟨Protocol.sr, 2, 0, 2, {0, 1}, ∅, 0, 5⟩).base_seq_num :=
  sr_selective_ack ⟨Protocol.sr, 2, 0, 2, {0, 1}, ∅, 0, 5⟩ 1 rfl

theorem send_packets_in_window_fields (c : ℕ) (st : SenderState) :
    (send_packets_in_window c st).protocol = st.protocol ∧
      (send_packets_in_window c st).window_size = st.window_size ∧
      (send_packets_in_window c st).base_seq_num = st.base_seq_num ∧
      (send_packets_in_window c st).retry_count = st.retry_count ∧
      (send_packets_in_window c st).max_retries = st.max_retries ∧
      (send_packets_in_window c st).ack_received = st.ack_received := by
  induction st using send_packets_in_window.induct c with
  | case1 st h ih =>
    have hstep : send_packets_in_window c st =
        send_packets_in_window c
          { st with packet_buffer := insert st.next_seq_num st.packet_buffer,
                    next_seq_num := st.next_seq_num + 1 } := by
      conv_lhs => rw [send_packets_in_window]
      exact dif_pos h
    rw [hstep]
    exact ih
  | case2 st h =>
    have hstep : send_packets_in_window c st = st := by
      conv_lhs => rw [send_packets_in_window]
      exact dif_neg h
    rw [hstep]
    exact ⟨rfl, rfl, rfl, rfl, rfl, rfl⟩

theorem send_packets_in_window_next_gt (c : ℕ) (st : SenderState)
    (h1 : st.base_seq_num < c) (h2 : 0 < st.window_size) :
    st.base_seq_num < (send_packets_in_window c st).next_seq_num := by
  induction st using send_packets_in_window.induct c with
  | case1 st h ih =>
    have hstep : send_packets_in_window c st =
        send_packets_in_window c
          { st with packet_buffer := insert st.next_seq_num st.packet_buffer,
                    next_seq_num := st.next_seq_num + 1 } := by
      conv_lhs => rw [send_packets_in_window]
      exact dif_pos h
    rw [hstep]
    exact ih h1 h2
  | case2 st h =>
    have hstep : send_packets_in_window c st = st := by
      conv_lhs => rw [send_packets_in_window]
      exact dif_neg h
    rw [hstep]
    simp only [Decidable.not_and_iff_or_not, not_lt] at h
    omega

theorem execute_sliding_window_loss_spec (fuel count : ℕ) (st : SenderState)
    (attempts : ℕ) (hc : 0 < count) (hw : 0 < st.window_size)
    (hb : st.base_seq_num = 0) (hr : st.retry_count ≤ st.max_retries)
    (hf : st.max_retries - st.retry_count + 1 ≤ fuel) :
    execute_sliding_window_loss fuel count st attempts =
      some (false, attempts + (st.max_retries - st.retry_count)) := by
  induction fuel generalizing st attempts with
  | zero => omega
  | succ fuel ih =>
    obtain ⟨hfp, hfw, hfb, hfr, hfm, hfa⟩ := send_packets_in_window_fields count st
    have hgt : (send_packets_in_window count st).base_seq_num <
        (send_packets_in_window count st).next_seq_num := by
      rw [hfb]
      exact send_packets_in_window_next_gt count st (by omega) hw
    rw [execute_sliding_window_loss]
    rw [if_pos (by omega)]
    rw [if_neg (by omega)]
    simp only [hgt, if_true]
    by_cases hcase : st.retry_count = st.max_retries
    · rw [if_pos (by simp [handle_timeout, hfr, hfm]; omega)]
      rw [hcase]
      simp
    · rw [if_neg (by simp [handle_timeout, hfr, hfm]; omega)]
      have hrec := ih (handle_timeout (send_packets_in_window count st)) (attempts + 1)
        (by simp [handle_timeout, hfw]; omega)
        (by simp [handle_timeout, hfb, hb])
        (by simp [handle_timeout, hfr, hfm]; omega)
        (by simp [handle_timeout, hfr, hfm]; omega)
      rw [hrec]
      simp [handle_timeout, hfr, hfm]
      omega

/-- C3: with loss probability 1.0 on every transmission (no ACK or NACK
ever reaches the sender), the sliding-window send loop terminates for any
sufficient iteration budget, returns failure, and performs exactly
max_retries timeout retransmission rounds before giving up. -/
theorem retry_bound_total_loss (p : Protocol) (count window max_retries fuel : ℕ)
    (hc : 0 < count) (hw : 0 < window) (hf : max_retries + 1 ≤ fuel) :
    execute_sliding_window_loss fuel count (freshSender p window max_retries) 0 =
      some (false, max_retries) := by
  have h := execute_sliding_window_loss_spec fuel count
    (freshSender p window max_retries) 0 hc hw rfl (by simp [freshSender])
    (by simp [freshSender]; omega)
  simpa [freshSender] using h

/-- C3 witness: four fragments, window 4, max_retries 5 (the default),
fuel 7: the loop stops with failure after exactly 5 retransmissions. -/
theorem retry_bound_total_loss_witness :
    execute_sliding_window_loss 7 4 (freshSender Protocol.gbn 4 5) 0 =
      some (false, 5) :=
  retry_bound_total_loss Protocol.gbn 4 4 5 7 (by decide) (by decide) (by decide)

theorem send_packets_in_window_inv (c : ℕ) (st : SenderState)
    (h : SenderInv st) : SenderInv (send_packets_in_window c st) := by
  induction st using send_packets_in_window.induct c with
  | case1 st hg ih =>
    have hstep : send_packets_in_window c st =
        send_packets_in_window c
          { st with packet_buffer := insert st.next_seq_num st.packet_buffer,
                    next_seq_num := st.next_seq_num + 1 } := by
      conv_lhs => rw [send_packets_in_window]
      exact dif_pos hg
    rw [hstep]
    obtain ⟨h1, h2, h3, h4⟩ := h
    refine ih ⟨by simp; omega, by simp; omega, ?_, ?_⟩
    · simp only [h3]
      ext j
      simp only [Finset.mem_insert, Finset.mem_Ico]
      omega
    · intro a ha
      simp only at ha ⊢
      have := h4 a ha
      omega
  | case2 st hg =>
    have hstep : send_packets_in_window c st = st := by
      conv_lhs => rw [send_packets_in_window]
      exact dif_neg hg
    rw [hstep]
    exact h

theorem applyOp_inv (st : SenderState) (op : SenderOp) (h : SenderInv st)
    (hv : validOpB st op = true) : SenderInv (applyOp st op) := by
  obtain ⟨h1, h2, h3, h4⟩ := h
  cases op with
  | reset =>
    refine ⟨by simp [applyOp, reset_parameters], by simp [applyOp, reset_parameters], ?_, ?_⟩
    · simp [applyOp, reset_parameters]
    · intro a ha
      simp [applyOp, reset_parameters] at ha
  | fill c => exact send_packets_in_window_inv c st ⟨h1, h2, h3, h4⟩
  | ack k =>
    simp only [validOpB, decide_eq_true_eq] at hv
    show SenderInv (handle_ack k st)
    cases hpr : st.protocol with
    | gbn =>
      rw [handle_ack, hpr]
      by_cases hk : k < st.base_seq_num
      · rw [if_pos hk]
        exact ⟨h1, h2, h3, h4⟩
      · rw [if_neg hk]
        refine ⟨by simp; omega, by simp; omega, ?_, ?_⟩
        · simp only [h3]
          ext j
          simp only [Finset.mem_sdiff, Finset.mem_Ico]
          omega
        · intro a ha
          simp only at ha ⊢
          exact h4 a ha
    | sr =>
      obtain ⟨pr, w, b, n, buf, ack, r, m⟩ := st
      simp only at hpr h1 h2 h3 h4 hv
      subst hpr
      subst h3
      have hd := srDrain_spec (insert k ack) b (Finset.Ico b n)
      obtain ⟨hd1, hd2, hd3, hd4⟩ := hd
      have hackbound : ∀ a ∈ insert k ack, a < n := by
        intro a ha
        rcases Finset.mem_insert.mp ha with rfl | ha
        · exact hv
        · exact h4 a ha
      have hble : (srDrain (insert k ack) b (Finset.Ico b n)).1 ≤ n := by
        by_contra hcon
        push_neg at hcon
        exact absurd (hackbound _ (hd3 n h1 hcon)) (lt_irrefl n)
      refine ⟨?_, ?_, ?_, ?_⟩
      · exact hble
      · show n ≤ (srDrain (insert k ack) b (Finset.Ico b n)).1 + w
        omega
      · show (srDrain (insert k ack) b (Finset.Ico b n)).2 =
          Finset.Ico (srDrain (insert k ack) b (Finset.Ico b n)).1 n
        rw [hd4]
        ext j
        simp only [Finset.mem_sdiff, Finset.mem_Ico]
        omega
      · exact hackbound
  | nack k => exact ⟨h1, h2, h3, h4⟩
  | timeout =>
    refine ⟨h1, h2, h3, ?_⟩
    intro a ha
    exact h4 a ha

theorem validTrace_inv (ops : List SenderOp) (st : SenderState)
    (h : SenderInv st) (hv : validTraceB st ops = true) :
    ∀ n, SenderInv (applyOps st (ops.take n)) := by
  induction ops generalizing st with
  | nil =>
    intro n
    simpa [applyOps] using h
  | cons op rest ih =>
    intro n
    cases n with
    | zero => simpa [applyOps] using h
    | succ n =>
      simp only [validTraceB, Bool.and_eq_true] at hv
      have hstep := applyOp_inv st op h hv.1
      have := ih (applyOp st op) hstep hv.2 n
      simpa [applyOps, List.take_succ_cons, List.foldl_cons] using this

/-- C6 counterexample: the claim quantifies over every sequence of sender
operations, but an ACK whose sequence number was never sent breaks the
window invariant.  From a fresh GBN state with window_size 1, filling the
window for a 5-fragment message sends packet 0 (next_seq_num = 1), and
processing ACK(3) — e.g. a stale ACK left over from an earlier message —
moves base_seq_num to 4, violating base_seq_num ≤ next_seq_num. -/
theorem sender_invariant_counterexample :
    ¬((applyOp (applyOp (freshSender Protocol.gbn 1 5) (SenderOp.fill 5))
        (SenderOp.ack 3)).base_seq_num ≤
      (applyOp (applyOp (freshSender Protocol.gbn 1 5) (SenderOp.fill 5))
        (SenderOp.ack 3)).next_seq_num) := by
  have h1 : applyOp (freshSender Protocol.gbn 1 5) (SenderOp.fill 5) =
      ⟨Protocol.gbn, 1, 0, 1, {0}, ∅, 0, 5⟩ := by
    show send_packets_in_window 5 (freshSender Protocol.gbn 1 5) = _
    rw [send_packets_in_window]
    rw [dif_pos (by decide)]
    rw [send_packets_in_window]
    rw [dif_neg (by decide)]
    rfl
  rw [h1]
  decide

/-- C6 (amended): starting from a fresh window state, for every sequence of
sender operations (reset, fill window, process ACK, process NACK, timeout
retransmission) in which every processed ACK acknowledges a sequence
number that has actually been sent (seq < next_seq_num), after each
operation the invariant base_seq_num ≤ next_seq_num ≤ base_seq_num +
window_size holds and packet_buffer holds exactly the keys in
[base_seq_num, next_seq_num) — in SR mode this includes individually
acknowledged packets not yet passed by the base; every acknowledged
sequence number is below next_seq_num. -/
theorem sender_invariant_valid_traces (p : Protocol) (window max_retries : ℕ)
    (ops : List SenderOp)
    (hv : validTraceB (freshSender p window max_retries) ops = true) :
    ∀ n, SenderInv (applyOps (freshSender p window max_retries) (ops.take n)) := by
  apply validTrace_inv ops (freshSender p window max_retries)
  · refine ⟨le_refl 0, by simp [freshSender], by simp [freshSender], ?_⟩
    intro a ha
    simp [freshSender] at ha
  · exact hv

/-- C6 witness: the trace [reset, nack 1, timeout, fill 3] is valid from a
fresh GBN state with window 4, so the invariant holds after each of its
operations. -/
theorem sender_invariant_valid_traces_witness :
    SenderInv (applyOps (freshSender Protocol.gbn 4 5)
      ([SenderOp.reset, SenderOp.nack 1, SenderOp.timeout,
        SenderOp.fill 3].take 4)) :=
  sender_invariant_valid_traces Protocol.gbn 4 5
    [SenderOp.reset, SenderOp.nack 1, SenderOp.timeout, SenderOp.fill 3]
    (by decide) 4

theorem process_sr_buffer_spec (expected : ℕ) (buf : Finset ℕ) :
    expected ≤ (process_sr_buffer expected buf).1 ∧
      (process_sr_buffer expected buf).1 ∉ buf ∧
      (∀ m, expected ≤ m → m < (process_sr_buffer expected buf).1 → m ∈ buf) ∧
      (process_sr_buffer expected buf).2 =
        buf \ Finset.Ico expected (process_sr_buffer expected buf).1 := by
  induction expected, buf using process_sr_buffer.induct with
  | case1 expected buf h ih =>
    obtain ⟨ih1, ih2, ih3, ih4⟩ := ih
    have hstep : process_sr_buffer expected buf =
        process_sr_buffer (expected + 1) (buf.erase expected) := by
      conv_lhs => rw [process_sr_buffer]
      exact dif_pos h
    rw [hstep]
    refine ⟨by omega, ?_, ?_, ?_⟩
    · intro hcon
      exact ih2 (Finset.mem_erase.mpr ⟨by omega, hcon⟩)
    · intro m hm1 hm2
      rcases Nat.eq_or_lt_of_le hm1 with rfl | hlt
      · exact h
      · exact (Finset.mem_erase.mp (ih3 m (by omega) hm2)).2
    · rw [ih4]
      ext j
      simp only [Finset.mem_sdiff, Finset.mem_erase, Finset.mem_Ico]
      constructor
      · rintro ⟨⟨hj1, hj2⟩, hj3⟩
        exact ⟨hj2, fun hcon => hj3 ⟨by omega, hcon.2⟩⟩
      · rintro ⟨hj1, hj2⟩
        refine ⟨⟨?_, hj1⟩, fun hcon => hj2 ⟨by omega, hcon.2⟩⟩
        intro heq
        subst heq
        exact hj2 ⟨le_refl _, by omega⟩
  | case2 expected buf h =>
    have hstep : process_sr_buffer expected buf = (expected, buf) := by
      conv_lhs => rw [process_sr_buffer]
      exact dif_neg h
    rw [hstep]
    exact ⟨le_refl _, h, fun m hm1 hm2 => absurd (lt_of_le_of_lt hm1 hm2) (lt_irrefl _),
      by simp⟩

/-- C7 counterexample: the SR receiver applies no window bound.  A fresh
SR session (expected_seq_num 0, window_size 4) that receives a well-formed
DATA packet with sequence 100 stores key 100 in received_buffer even
though 100 lies far outside the window [0, 4). -/
theorem sr_receiver_window_counterexample :
    (100 : ℕ) ∈ (handle_sr_message 100
        ((handle_syn ("sr") 3 4 ("ab") (some ("sr")) (some 3) (some 4)).1)).received_buffer ∧
      (handle_sr_message 100
        ((handle_syn ("sr") 3 4 ("ab") (some ("sr")) (some 3) (some 4)).1)).expected_seq_num = 0 ∧
      ((handle_syn ("sr") 3 4 ("ab") (some ("sr")) (some 3) (some 4)).1).window_size = 4 ∧
      ¬(100 < 0 + 4) := by
  have h0 : process_sr_buffer 0 (insert 100 (∅ : Finset ℕ)) =
      (0, insert 100 (∅ : Finset ℕ)) := by
    rw [process_sr_buffer]
    rw [dif_neg (by decide)]
  have hsess : (handle_syn ("sr") 3 4 ("ab") (some ("sr")) (some 3) (some 4)).1 =
      ⟨"sr", 3, 4, false, 0, ∅, -1, "ab"⟩ := rfl
  rw [hsess]
  simp only [handle_sr_message]
  rw [h0]
  refine ⟨by decide, rfl, trivial, by decide⟩

/-- C7 (amended): the SR receiver stores every well-formed DATA payload in
received_buffer under its sequence number with no window bound (an
out-of-window sequence is stored, not ignored), ACKs that sequence, and
then drains the buffer in order from expected_seq_num: expected_seq_num
advances to the first sequence at or above its old value not in the
buffer, exactly the delivered prefix is removed, and the stored sequence
remains buffered unless the drain delivered it. -/
theorem sr_receiver_stores_any_sequence (seq : ℕ) (s : ServerSession) :
    s.expected_seq_num ≤ (handle_sr_message seq s).expected_seq_num ∧
      (handle_sr_message seq s).expected_seq_num ∉ insert seq s.received_buffer ∧
      (∀ m, s.expected_seq_num ≤ m → m < (handle_sr_message seq s).expected_seq_num →
        m ∈ insert seq s.received_buffer) ∧
      (handle_sr_message seq s).received_buffer =
        insert seq s.received_buffer \
          Finset.Ico s.expected_seq_num (handle_sr_message seq s).expected_seq_num ∧
      (seq ∈ (handle_sr_message seq s).received_buffer ∨
        seq < (handle_sr_message seq s).expected_seq_num) := by
  have h := process_sr_buffer_spec s.expected_seq_num (insert seq s.received_buffer)
  obtain ⟨h1, h2, h3, h4⟩ := h
  have hexp : (handle_sr_message seq s).expected_seq_num =
      (process_sr_buffer s.expected_seq_num (insert seq s.received_buffer)).1 := rfl
  have hbuf : (handle_sr_message seq s).received_buffer =
      (process_sr_buffer s.expected_seq_num (insert seq s.received_buffer)).2 := rfl
  rw [hexp, hbuf, h4]
  refine ⟨h1, h2, h3, rfl, ?_⟩
  by_cases hs : seq < (process_sr_buffer s.expected_seq_num (insert seq s.received_buffer)).1
  · exact Or.inr hs
  · refine Or.inl ?_
    simp only [Finset.mem_sdiff, Finset.mem_insert, Finset.mem_Ico]
    refine ⟨by simp, fun hcon => hs hcon.2⟩

/-- C8 counterexample: a SYN proposing the unsupported protocol "xyz" is
answered with status ok, not status error — handle_syn performs no
protocol validation. -/
theorem handle_syn_protocol_counterexample :
    ("xyz" ≠ "gbn" ∧ "xyz" ≠ "sr") ∧
      (handle_syn ("gbn") 3 4 ("ab") (some ("xyz")) (some 3) (some 4)).2.status = "ok" ∧
      ¬(handle_syn ("gbn") 3 4 ("ab") (some ("xyz")) (some 3) (some 4)).2.status = "error" := by
  refine ⟨⟨by decide, by decide⟩, rfl, by decide⟩

/-- C8 (amended): handle_syn accepts every proposed protocol value
unchanged (supported or not) and always replies with a SYN-ACK carrying
status ok; fragment_size is clamped to min(requested, server_max), the
requested window size is taken as is, and the created session starts with
handshake_complete false, expected_seq_num 0, an empty receive buffer and
last_ack_sent -1. -/
theorem handle_syn_always_ok (sp : String) (smf sw : ℕ) (sid : String)
    (rp : Option String) (rf rwd : Option ℕ) :
    (handle_syn sp smf sw sid rp rf rwd).2.status = "ok" ∧
      (handle_syn sp smf sw sid rp rf rwd).2.protocol = rp.getD sp ∧
      (handle_syn sp smf sw sid rp rf rwd).2.max_fragment_size = min (rf.getD smf) smf ∧
      (handle_syn sp smf sw sid rp rf rwd).2.window_size = rwd.getD sw ∧
      (handle_syn sp smf sw sid rp rf rwd).1.protocol = rp.getD sp ∧
      (handle_syn sp smf sw sid rp rf rwd).1.max_fragment_size = min (rf.getD smf) smf ∧
      (handle_syn sp smf sw sid rp rf rwd).1.handshake_complete = false ∧
      (handle_syn sp smf sw sid rp rf rwd).1.expected_seq_num = 0 ∧
      (handle_syn sp smf sw sid rp rf rwd).1.received_buffer = ∅ ∧
      (handle_syn sp smf sw sid rp rf rwd).1.last_ack_sent = -1 :=
  ⟨rfl, rfl, rfl, rfl, rfl, rfl, rfl, rfl, rfl, rfl⟩

/-- C10: a server session is created by handle_syn with last_ack_sent -1,
and when the first well-formed DATA packet handled by the GBN handler is
out of order (sequence different from expected_seq_num 0), the
resend-last-ACK branch calls create_packet with sequence_num -1, whose
struct.pack of the unsigned 16-bit sequence field fails, so the handler
raises instead of emitting an ACK. -/
theorem gbn_first_out_of_order_raises (md5_4 : List ℕ → List ℕ)
    (sp : String) (smf sw : ℕ) (sid : String) (rp : Option String)
    (rf rwd : Option ℕ) (seq : ℕ) (hseq : seq ≠ 0) :
    (handle_syn sp smf sw sid rp rf rwd).1.last_ack_sent = -1 ∧
      handle_gbn_message md5_4 seq (handle_syn sp smf sw sid rp rf rwd).1 = none := by
  have hsess : (handle_syn sp smf sw sid rp rf rwd).1 =
      ⟨rp.getD sp, min (rf.getD smf) smf, rwd.getD sw, false, 0, ∅, -1, sid⟩ := rfl
  refine ⟨rfl, ?_⟩
  rw [hsess]
  simp only [handle_gbn_message]
  rw [if_pos (by simpa using hseq)]
  have hcp : create_packet md5_4 ACK_TYPE
      (strBytes ("ACK for seq " ++ toString
        ((⟨rp.getD sp, min (rf.getD smf) smf, rwd.getD sw, false, 0, ∅, -1, sid⟩ :
          ServerSession).last_ack_sent)))
      ((⟨rp.getD sp, min (rf.getD smf) smf, rwd.getD sw, false, 0, ∅, -1, sid⟩ :
          ServerSession).last_ack_sent) = none := by
    simp only [create_packet, structPackIBH4s]
    rw [if_neg (by intro hcon; have := hcon.2.2.1; simp at this)]
    rfl
  rw [hcp]

/-- C10 witness: a concrete fresh GBN session receiving DATA with
sequence 1 first: the handler returns the raised-exception outcome. -/
theorem gbn_first_out_of_order_raises_witness :
    (handle_syn ("gbn") 3 4 ("ab") (some ("gbn")) (some 3) (some 4)).1.last_ack_sent = -1 ∧
      handle_gbn_message (fun _ => [0, 0, 0, 0]) 1
        (handle_syn ("gbn") 3 4 ("ab") (some ("gbn")) (some 3) (some 4)).1 = none :=
  gbn_first_out_of_order_raises (fun _ => [0, 0, 0, 0]) ("gbn") 3 4 ("ab")
    (some ("gbn")) (some 3) (some 4) 1 (by decide)
